import Mathlib

/-!
Verification development for the sequential Structure-from-Motion
reconstruction engine of AliceVision
(`src/aliceVision/sfm/pipelines/sequential/sequential_SfM.hpp`).

The header declares the engine class (configuration fields, their default
values and the public setters inline) and the signatures of the pipeline
operations.  The operation bodies live in the corresponding `.cpp`
translation unit, which is not part of the provided sources; those
operations are therefore modelled from the specification, as indicated by
the doc comment of each such definition.
-/

namespace AliceVisionSfM

/-! ### Engine configuration (shallow embedding of the class declaration)

The fields mirror the data members of `SequentialSfMReconstructionEngine`
with the default member initializers given in the header.  `camType` and
`userInitialImagePair` have no default initializer in the header, so the
initial state takes them as (arbitrary) constructor inputs.  The camera
type enumeration and the scene-part bitmask are embedded as plain `Nat`. -/

structure EngineConfig where
  userInteraction : Bool
  userInitialImagePair : Nat × Nat
  camType : Nat
  minInputTrackLength : Int
  minTrackLength : Int
  minPointsPerPose : Int
  sfmdataInterFileExtension : String
  sfmdataInterFilter : Nat
  pyramidBase : Int
  pyramidDepth : Int
deriving DecidableEq

/-- Bitmask default `EXTRINSICS | INTRINSICS | STRUCTURE | OBSERVATIONS |
CONTROL_POINTS` of the header, embedded as an opaque numeric constant. -/
def defaultInterFilter : Nat := 30

/-- The engine state right after construction: every field that has a
default member initializer in the header starts at that value; the two
fields without one (`camType`, the user initial pair) are constructor
inputs.  `_pyramidBase = 2` and `_pyramidDepth = 5` are `const` members. -/
def engineInit (camType0 : Nat) (pair0 : Nat × Nat) : EngineConfig :=
  { userInteraction := true
    userInitialImagePair := pair0
    camType := camType0
    minInputTrackLength := 2
    minTrackLength := 2
    minPointsPerPose := 30
    sfmdataInterFileExtension := ".ply"
    sfmdataInterFilter := defaultInterFilter
    pyramidBase := 2
    pyramidDepth := 5 }

/-- The public configuration calls of the engine, one constructor per
public setter defined inline in the header.  The remaining public
operations (`Process`, `Resection`, ...) are modelled from the spec as
acting on the reconstruction state only, not on the configuration. -/
inductive ConfigCall where
  | setInitialPair (p : Nat × Nat)
  | setUnknownCameraType (c : Nat)
  | setSfmdataInterFileExtension (s : String)
  | setAllowUserInteraction (b : Bool)
  | setMinInputTrackLength (n : Int)
  | setMinTrackLength (n : Int)

/-- Effect of one public setter, exactly as written inline in the header:
each setter assigns its argument to the corresponding private field. -/
def applyCall (c : ConfigCall) (e : EngineConfig) : EngineConfig :=
  match c with
  | .setInitialPair p => { e with userInitialImagePair := p }
  | .setUnknownCameraType c => { e with camType := c }
  | .setSfmdataInterFileExtension s => { e with sfmdataInterFileExtension := s }
  | .setAllowUserInteraction b => { e with userInteraction := b }
  | .setMinInputTrackLength n => { e with minInputTrackLength := n }
  | .setMinTrackLength n => { e with minTrackLength := n }

/-- Effect of a sequence of public setter calls, applied left to right. -/
def applyCalls (cs : List ConfigCall) (e : EngineConfig) : EngineConfig :=
  cs.foldl (fun e c => applyCall c e) e

/-! ### Reconstruction state and the growth loop

Modelled from the spec: `ReconstructionState` is the partition of all view
ids into `reconstructed` and `remaining` (the header only stores
`_set_remainingViewId`; the reconstructed set lives in the scene).  A round
asks the ranker, the batch selector and the resectioner for the set of
views successfully resected this round (abstracted as `select`); whatever
that set is, the loop moves its ids one way from `remaining` to
`reconstructed`.  The loop halts when a round can move nothing. -/

structure RecState where
  allViews : Finset Nat
  reconstructed : Finset Nat
  remaining : Finset Nat
deriving DecidableEq

/-- The reconstruction-state invariant of the spec: the two sets are
disjoint and partition the full view set. -/
def RecInv (st : RecState) : Prop :=
  Disjoint st.reconstructed st.remaining ∧
    st.reconstructed ∪ st.remaining = st.allViews

instance (st : RecState) : Decidable (RecInv st) := by
  unfold RecInv; infer_instance

/-- Modelled from the spec (missing `sequential_SfM.cpp`): one round of the
grow loop.  `select st` is the set of views the round managed to resect;
only ids still in `remaining` can move, and they move to `reconstructed`. -/
def stepRound (select : RecState → Finset Nat) (st : RecState) : RecState :=
  { st with
    reconstructed := st.reconstructed ∪ (select st ∩ st.remaining)
    remaining := st.remaining \ (select st ∩ st.remaining) }

/-- Modelled from the spec (missing `sequential_SfM.cpp`): the
`Process` growth loop, fuelled.  A round that can move no view halts the
loop (this covers the two spec termination conditions: no connected view,
and no candidate clearing the points-per-pose bar, which both yield an
empty batch). -/
def Process (select : RecState → Finset Nat) : Nat → RecState → RecState
  | 0, st => st
  | n + 1, st =>
    if (select st ∩ st.remaining) = ∅ then st
    else Process select n (stepRound select st)

/-! ### Connectivity ranking (`FindConnectedViews`) and batch selection

Modelled from the spec (missing `sequential_SfM.cpp`): for each remaining
view, the shared-observation count is the number of its tracks also
observed by an already reconstructed view; all views with a positive count
are returned, sorted descending by `(spatialScore, sharedObservationCount)`
with ties broken by ascending view id.  The spatial score (computed by the
pyramid scorer on the shared tracks) and the intrinsics flag enter the
record as parameters here; the pyramid scorer itself is embedded below. -/

/-- The `ViewConnectionScore` record of the header
`(ImageId, NbPutativeCommonPoint, score, isIntrinsicsReconstructed)`,
as a named structure. -/
structure ViewConnectionScore where
  id : Nat
  nbCommonPoint : Nat
  score : Nat
  isIntrinsicsReconstructed : Bool
deriving DecidableEq

/-- The ranking order on connection scores: descending by spatial score,
then descending by shared-observation count, ties broken by ascending
view id. -/
def connLE (a b : ViewConnectionScore) : Prop :=
  b.score < a.score ∨
    (b.score = a.score ∧
      (b.nbCommonPoint < a.nbCommonPoint ∨
        (b.nbCommonPoint = a.nbCommonPoint ∧ a.id ≤ b.id)))

instance : DecidableRel connLE := fun a b => by
  unfold connLE; infer_instance

instance : IsTotal ViewConnectionScore connLE :=
  ⟨by intro a b; unfold connLE; omega⟩

instance : IsTrans ViewConnectionScore connLE :=
  ⟨by intro a b c h1 h2; unfold connLE at h1 h2 ⊢; omega⟩

/-- Modelled from the spec: number of tracks of view `v` also observed by
an already reconstructed view.  `tracksPerView` is the per-view inverted
track index `_map_tracksPerView` of the header. -/
def sharedObservationCount (tracksPerView : Nat → Finset Nat)
    (reconstructed : Finset Nat) (v : Nat) : Nat :=
  ((tracksPerView v).filter
    (fun t => ∃ r ∈ reconstructed, t ∈ tracksPerView r)).card

/-- The connection-score record built for one candidate view. -/
def mkViewScore (tracksPerView : Nat → Finset Nat) (reconstructed : Finset Nat)
    (spatial : Nat → Nat) (intrinsicsFlag : Nat → Bool) (v : Nat) :
    ViewConnectionScore :=
  ⟨v, sharedObservationCount tracksPerView reconstructed v, spatial v,
    intrinsicsFlag v⟩

/-- Modelled from the spec (missing `sequential_SfM.cpp`):
`FindConnectedViews`.  Returns the ranked list of all remaining views whose
shared-observation count is positive, and `false` exactly when that list is
empty (no remaining view shares a track with the reconstruction). -/
def FindConnectedViews (tracksPerView : Nat → Finset Nat)
    (reconstructed : Finset Nat) (spatial : Nat → Nat)
    (intrinsicsFlag : Nat → Bool) (remainingViewIds : Finset Nat) :
    Bool × List ViewConnectionScore :=
  let cands :=
    (remainingViewIds.filter
      (fun v => 0 < sharedObservationCount tracksPerView reconstructed v)).sort
      (fun a b => a ≤ b)
  let out :=
    List.insertionSort connLE
      (cands.map (mkViewScore tracksPerView reconstructed spatial intrinsicsFlag))
  (!out.isEmpty, out)

/-- Modelled from the spec (missing `sequential_SfM.cpp`):
`FindNextImagesGroupForResection`.  Keeps, in ranked order, the connected
views offering at least `minPointsPerPose` shared correspondences, up to
the internal batch-size cap, and returns `false` when no candidate clears
the bar. -/
def FindNextImagesGroupForResection (minPointsPerPose batchCap : Nat)
    (tracksPerView : Nat → Finset Nat) (reconstructed : Finset Nat)
    (spatial : Nat → Nat) (intrinsicsFlag : Nat → Bool)
    (remainingViewIds : Finset Nat) : Bool × List Nat :=
  let conn :=
    (FindConnectedViews tracksPerView reconstructed spatial intrinsicsFlag
      remainingViewIds).2
  let sel :=
    ((conn.filter (fun r => minPointsPerPose ≤ r.nbCommonPoint)).take
      batchCap).map (fun r => r.id)
  (!sel.isEmpty, sel)

/-- Modelled from the spec: the per-round selection wired from the batch
selector and the external solver outcome (`solverOk v = true` when the
robust resection of view `v` succeeds this round). -/
def roundSelect (minPointsPerPose batchCap : Nat)
    (tracksPerView : Nat → Finset Nat) (spatial : Nat → Nat)
    (intrinsicsFlag : Nat → Bool) (solverOk : Nat → Bool)
    (st : RecState) : Finset Nat :=
  ((FindNextImagesGroupForResection minPointsPerPose batchCap tracksPerView
      st.reconstructed spatial intrinsicsFlag st.remaining).2.filter
    solverOk).toFinset

/-! ### Pyramid scoring (`computeImageScore`)

Modelled from the spec (missing `sequential_SfM.cpp`): every observation
carries a precomputed cell index at each pyramid level (the
`_map_featsPyramidPerView` cache); an observation contributes
`weight[level]` to the view score only while the running count of its
`(level, cell)` is below `pyramidThreshold`, and zero once the cell is
saturated.  An observation is embedded as the list of its cell indices,
one per level. -/

/-- Number of observations of the cell list that contribute, processing
the list in order with running per-cell counts `cnt` and saturation bound
`threshold`. -/
def saturCount (threshold : Nat) (cnt : Nat → Nat) : List Nat → Nat
  | [] => 0
  | c :: rest =>
    (if cnt c < threshold then 1 else 0) +
      saturCount threshold (fun x => if x = c then cnt x + 1 else cnt x) rest

/-- The level-`l` cell of each observation of the view, in order.  An
observation is the list of its per-level cell indices from the pyramid
cache. -/
def cellsAtLevel (obs : List (List Nat)) (l : Nat) : List Nat :=
  obs.map (fun o => o.getD l 0)

/-- Modelled from the spec (missing `sequential_SfM.cpp`):
`computeImageScore`.  Sums, over the pyramid levels, the level weight
times the number of observations whose cell is not yet saturated. -/
def computeImageScore (weights : List Nat) (threshold : Nat)
    (obs : List (List Nat)) : Nat :=
  (Finset.range weights.length).sum
    (fun l => weights.getD l 0 * saturCount threshold (fun _ => 0) (cellsAtLevel obs l))

/-! ### Robust resection of a batch (`RobustResectionOfImages`)

Modelled from the spec (missing `sequential_SfM.cpp`): the external robust
pose solver is a function `solver : viewId → Option Pose`.  The batch is
processed view by view; a success attaches the solver pose to the view and
records the id as reconstructed this round, a failure records the id as
rejected and touches nothing else.  Poses of views outside the batch are
never modified and no pose is ever removed. -/

/-- Pointwise extension of a partial pose assignment. -/
def extendPoses {P : Type} (poses : Nat → Option P) (v : Nat) (p : P) :
    Nat → Option P :=
  fun w => if w = v then some p else poses w

/-- Modelled from the spec (missing `sequential_SfM.cpp`):
`RobustResectionOfImages`.  Returns the updated pose assignment, the set of
view ids reconstructed this round and the set of rejected view ids. -/
def RobustResectionOfImages {P : Type} (solver : Nat → Option P) :
    List Nat → (Nat → Option P) → (Nat → Option P) × Finset Nat × Finset Nat
  | [], poses => (poses, ∅, ∅)
  | v :: rest, poses =>
    match solver v with
    | some p =>
      let r := RobustResectionOfImages solver rest (extendPoses poses v p)
      (r.1, insert v r.2.1, r.2.2)
    | none =>
      let r := RobustResectionOfImages solver rest poses
      (r.1, r.2.1, insert v r.2.2)

/-! ### Landmarks, the bad-track rejector and the refinement stage

Modelled from the spec (missing `sequential_SfM.cpp`): a landmark carries
its track id and its observations; an observation carries the observing
view id and its current reprojection residual (embedded as an integer in
residual units).  `badTrackRejector` removes every observation whose
residual exceeds the precision, then removes every landmark left with
fewer than two observations, and reports the number of removed
observations.  `RefinementStage` alternates external bundle adjustment
(`ba`) with the rejector until the rejector removes zero observations or
the iteration cap (the fuel) is reached. -/

structure Observation where
  viewId : Nat
  residual : Int
deriving DecidableEq

structure Landmark where
  trackId : Nat
  obs : List Observation
deriving DecidableEq

/-- Drop the observations of one landmark whose residual exceeds the
precision. -/
def filterLandmarkObs (precision : Int) (lm : Landmark) : Landmark :=
  { lm with obs := lm.obs.filter (fun o => o.residual ≤ precision) }

/-- Modelled from the spec (missing `sequential_SfM.cpp`):
`badTrackRejector`.  Removes the observations whose residual exceeds
`precision`, removes the landmarks left with fewer than 2 observations,
and reports the number of observations removed for excessive residual. -/
def badTrackRejector (precision : Int) (lms : List Landmark) :
    List Landmark × Nat :=
  let filtered := lms.map (filterLandmarkObs precision)
  let kept := filtered.filter (fun lm => 2 ≤ lm.obs.length)
  let nbOutliers :=
    (lms.map (fun lm =>
      lm.obs.countP (fun o => decide (precision < o.residual)))).sum
  (kept, nbOutliers)

/-- Modelled from the spec (missing `sequential_SfM.cpp`): the refinement
stage.  Each iteration runs external bundle adjustment then the rejector;
the alternation stops as soon as the rejector removes zero observations,
or when the iteration cap (the fuel) is exhausted.  Returns the final
scene and the total number of observations removed over the run. -/
def RefinementStage (ba : List Landmark → List Landmark) (precision : Int) :
    Nat → List Landmark → List Landmark × Nat
  | 0, s => (s, 0)
  | n + 1, s =>
    let r := badTrackRejector precision (ba s)
    if r.2 = 0 then (r.1, 0)
    else
      let rest := RefinementStage ba precision n r.1
      (rest.1, r.2 + rest.2)

/-- A scene is clean for `precision` when every landmark has at least two
observations and every residual is within `precision`; this is exactly the
shape of every `badTrackRejector` output. -/
def CleanScene (precision : Int) (s : List Landmark) : Prop :=
  ∀ lm ∈ s, 2 ≤ lm.obs.length ∧ ∀ o ∈ lm.obs, o.residual ≤ precision

/-! ### Concrete instances used by witnesses and counterexamples -/

/-- A concrete round selection: every round proposes view 2. -/
def select0 : RecState → Finset Nat := fun _ => {2}

/-- A concrete reconstruction state: view 0 reconstructed, views 1, 2, 3
remaining. -/
def stW : RecState := ⟨{0, 1, 2, 3}, {0}, {1, 2, 3}⟩

/-- A concrete per-view track index: view 0 observes tracks 0 and 1, view 1
tracks 0 and 2, view 3 tracks 0, 1 and 9, every other view track 7. -/
def tpv0 : Nat → Finset Nat := fun v =>
  if v = 0 then {0, 1} else if v = 1 then {0, 2}
  else if v = 3 then {0, 1, 9} else {7}

/-- A concrete spatial score. -/
def spatial0 : Nat → Nat := fun v => v

/-- A concrete intrinsics flag. -/
def flag0 : Nat → Bool := fun _ => true

/-- A concrete solver-success predicate. -/
def solverOk0 : Nat → Bool := fun _ => true

/-- A concrete robust pose solver: fails on view 1, otherwise pose 7. -/
def solver1 : Nat → Option Nat := fun v => if v = 1 then none else some 7

/-- A concrete initial pose assignment: view 3 already has pose 5. -/
def poses1 : Nat → Option Nat := fun v => if v = 3 then some 5 else none

/-- A scene with a single landmark holding a single in-precision
observation. -/
def sceneCe : List Landmark := [⟨0, [⟨5, 0⟩]⟩]

/-- A scene whose third observation has an excessive residual. -/
def sceneBad : List Landmark := [⟨1, [⟨0, 0⟩, ⟨1, 0⟩, ⟨2, 100⟩]⟩]

/-- A bundle-adjustment outcome that is the identity except on the empty
scene, where it produces `sceneBad`. -/
def baCe (s : List Landmark) : List Landmark := if s = [] then sceneBad else s

/-- A clean two-observation scene. -/
def sceneGood : List Landmark := [⟨0, [⟨0, 0⟩, ⟨1, 0⟩]⟩]

/-- Observation cell lists: two observations spread over two distinct
level-1 cells (same level-0 cell). -/
def obsACe : List (List Nat) := [[0, 0], [0, 1]]

/-- Observation cell lists: the same two observations concentrated in one
level-1 cell. -/
def obsBCe : List (List Nat) := [[0, 0], [0, 0]]

/-- Concrete landmarks for the rejector: the first keeps two observations
after filtering at precision 10, the second only one. -/
def lmsW : List Landmark :=
  [⟨0, [⟨0, 0⟩, ⟨1, 20⟩, ⟨2, 3⟩]⟩, ⟨1, [⟨0, 0⟩, ⟨1, 50⟩]⟩]

/-- Concrete reconstructed view set for the rejector witness. -/
def recW : Finset Nat := {0, 1, 2}

/-! ## Theorems -/

/-! ### Configuration interface (claims C9, C10) -/

theorem applyCall_minPointsPerPose (c : ConfigCall) (e : EngineConfig) :
    (applyCall c e).minPointsPerPose = e.minPointsPerPose := by
  cases c <;> rfl

theorem applyCalls_minPointsPerPose (cs : List ConfigCall) (e : EngineConfig) :
    (applyCalls cs e).minPointsPerPose = e.minPointsPerPose := by
  induction cs generalizing e with
  | nil => rfl
  | cons c cs ih =>
    simp only [applyCalls, List.foldl_cons] at *
    rw [ih, applyCall_minPointsPerPose]

theorem applyCall_sfmdataInterFilter (c : ConfigCall) (e : EngineConfig) :
    (applyCall c e).sfmdataInterFilter = e.sfmdataInterFilter := by
  cases c <;> rfl

theorem applyCalls_sfmdataInterFilter (cs : List ConfigCall) (e : EngineConfig) :
    (applyCalls cs e).sfmdataInterFilter = e.sfmdataInterFilter := by
  induction cs generalizing e with
  | nil => rfl
  | cons c cs ih =>
    simp only [applyCalls, List.foldl_cons] at *
    rw [ih, applyCall_sfmdataInterFilter]

theorem applyCall_pyramidBase (c : ConfigCall) (e : EngineConfig) :
    (applyCall c e).pyramidBase = e.pyramidBase := by
  cases c <;> rfl

theorem applyCalls_pyramidBase (cs : List ConfigCall) (e : EngineConfig) :
    (applyCalls cs e).pyramidBase = e.pyramidBase := by
  induction cs generalizing e with
  | nil => rfl
  | cons c cs ih =>
    simp only [applyCalls, List.foldl_cons] at *
    rw [ih, applyCall_pyramidBase]

theorem applyCall_pyramidDepth (c : ConfigCall) (e : EngineConfig) :
    (applyCall c e).pyramidDepth = e.pyramidDepth := by
  cases c <;> rfl

theorem applyCalls_pyramidDepth (cs : List ConfigCall) (e : EngineConfig) :
    (applyCalls cs e).pyramidDepth = e.pyramidDepth := by
  induction cs generalizing e with
  | nil => rfl
  | cons c cs ih =>
    simp only [applyCalls, List.foldl_cons] at *
    rw [ih, applyCall_pyramidDepth]

/-- Claim C9, counterexample: no sequence of public configuration calls can
change the minimum-points-per-pose option; in particular the caller cannot
set it to 10, so not every option the spec lists as recognized is settable
through the public interface. -/
theorem C9_counterexample :
    ¬ ∃ cs : List ConfigCall,
      (applyCalls cs (engineInit 0 (0, 0))).minPointsPerPose = 10 := by
  rintro ⟨cs, h⟩
  rw [applyCalls_minPointsPerPose] at h
  simp [engineInit] at h

/-- Claim C9 (amended): the initial-pair override, default camera type,
minimum input track length, minimum accepted track length, interactive
mode and the snapshot file format can each be set through the public
interface, while the minimum points per pose and the snapshot field
selection are private fields no public configuration call modifies. -/
theorem C9_config_setters (e : EngineConfig) (p : Nat × Nat) (c : Nat)
    (s : String) (b : Bool) (n m : Int) (cs : List ConfigCall) :
    (applyCall (.setInitialPair p) e).userInitialImagePair = p ∧
    (applyCall (.setUnknownCameraType c) e).camType = c ∧
    (applyCall (.setMinInputTrackLength n) e).minInputTrackLength = n ∧
    (applyCall (.setMinTrackLength m) e).minTrackLength = m ∧
    (applyCall (.setAllowUserInteraction b) e).userInteraction = b ∧
    (applyCall (.setSfmdataInterFileExtension s) e).sfmdataInterFileExtension
      = s ∧
    (applyCalls cs e).minPointsPerPose = e.minPointsPerPose ∧
    (applyCalls cs e).sfmdataInterFilter = e.sfmdataInterFilter :=
  ⟨rfl, rfl, rfl, rfl, rfl, rfl, applyCalls_minPointsPerPose cs e,
    applyCalls_sfmdataInterFilter cs e⟩

/-- Claim C10: the pyramid base and depth are the constants 2 and 5 from
construction on, and no public configuration call modifies them, so every
pyramid score of a run is computed over the same 5-level base-2 grid. -/
theorem C10_pyramid_constants (c0 : Nat) (p0 : Nat × Nat)
    (cs : List ConfigCall) :
    (engineInit c0 p0).pyramidBase = 2 ∧
    (engineInit c0 p0).pyramidDepth = 5 ∧
    (applyCalls cs (engineInit c0 p0)).pyramidBase = 2 ∧
    (applyCalls cs (engineInit c0 p0)).pyramidDepth = 5 := by
  refine ⟨rfl, rfl, ?_, ?_⟩
  · rw [applyCalls_pyramidBase]; rfl
  · rw [applyCalls_pyramidDepth]; rfl

/-! ### Growth-loop invariants, monotonicity and termination (C1, C8) -/

theorem stepRound_allViews (select : RecState → Finset Nat) (st : RecState) :
    (stepRound select st).allViews = st.allViews := rfl

theorem recInv_stepRound (select : RecState → Finset Nat) (st : RecState)
    (h : RecInv st) : RecInv (stepRound select st) := by
  obtain ⟨hdisj, hunion⟩ := h
  constructor
  · rw [Finset.disjoint_left]
    intro a ha hmem
    simp only [stepRound, Finset.mem_union, Finset.mem_sdiff,
      Finset.mem_inter] at ha hmem
    rcases ha with ha | ha
    · exact (Finset.disjoint_left.mp hdisj ha) hmem.1
    · exact hmem.2 ha
  · rw [stepRound_allViews, ← hunion]
    ext a
    simp only [stepRound, Finset.mem_union, Finset.mem_sdiff,
      Finset.mem_inter]
    tauto

theorem recInv_process (select : RecState → Finset Nat) (n : Nat)
    (st : RecState) (h : RecInv st) : RecInv (Process select n st) := by
  induction n generalizing st with
  | zero => exact h
  | succ n ih =>
    rw [Process]
    split
    · exact h
    · exact ih _ (recInv_stepRound select st h)

theorem stepRound_reconstructed_subset (select : RecState → Finset Nat)
    (st : RecState) :
    st.reconstructed ⊆ (stepRound select st).reconstructed :=
  Finset.subset_union_left

theorem stepRound_remaining_subset (select : RecState → Finset Nat)
    (st : RecState) : (stepRound select st).remaining ⊆ st.remaining :=
  Finset.sdiff_subset

theorem stepRound_new_from_remaining (select : RecState → Finset Nat)
    (st : RecState) :
    (stepRound select st).reconstructed \ st.reconstructed ⊆ st.remaining := by
  intro a ha
  simp only [stepRound, Finset.mem_sdiff, Finset.mem_union,
    Finset.mem_inter] at ha
  tauto

/-- Claim C1: the partition invariant (reconstructed and remaining are
disjoint and union to the full view set) holds after every number of
rounds, and a round only moves ids one way: the reconstructed set grows,
the remaining set shrinks, every newly reconstructed id comes out of the
remaining set, and the remaining set loses exactly the newly reconstructed
ids. -/
theorem C1_partition_invariant (select : RecState → Finset Nat)
    (st : RecState) (n : Nat) (h : RecInv st) :
    RecInv (Process select n st) ∧
    st.reconstructed ⊆ (stepRound select st).reconstructed ∧
    (stepRound select st).remaining ⊆ st.remaining ∧
    (stepRound select st).reconstructed \ st.reconstructed ⊆ st.remaining ∧
    (stepRound select st).remaining =
      st.remaining \ ((stepRound select st).reconstructed \ st.reconstructed) := by
  refine ⟨recInv_process select n st h, stepRound_reconstructed_subset select st,
    stepRound_remaining_subset select st,
    stepRound_new_from_remaining select st, ?_⟩
  ext a
  simp only [stepRound, Finset.mem_sdiff, Finset.mem_union, Finset.mem_inter]
  constructor
  · intro ⟨ha, hnot⟩
    exact ⟨ha, fun hx => hnot ⟨hx.1.resolve_left
      (fun hr => (Finset.disjoint_left.mp h.1 hr) ha) |>.1,
      hx.1.resolve_left (fun hr => (Finset.disjoint_left.mp h.1 hr) ha) |>.2⟩⟩
  · intro ⟨ha, hnot⟩
    refine ⟨ha, fun hx => hnot ⟨Or.inr hx, ?_⟩⟩
    exact fun hr => (Finset.disjoint_left.mp h.1 hr) ha

/-- Claim C1, witness at a concrete state and selection. -/
theorem C1_partition_invariant_witness :
    RecInv (Process select0 2 stW) ∧
    stW.reconstructed ⊆ (stepRound select0 stW).reconstructed ∧
    (stepRound select0 stW).remaining ⊆ stW.remaining ∧
    (stepRound select0 stW).reconstructed \ stW.reconstructed ⊆ stW.remaining ∧
    (stepRound select0 stW).remaining =
      stW.remaining \
        ((stepRound select0 stW).reconstructed \ stW.reconstructed) :=
  C1_partition_invariant select0 stW 2 (by decide)

theorem process_reconstructed_step (select : RecState → Finset Nat) (n : Nat)
    (st : RecState) :
    (Process select n st).reconstructed ⊆
      (Process select (n + 1) st).reconstructed := by
  induction n generalizing st with
  | zero =>
    rw [Process, Process]
    split
    · exact Finset.Subset.refl _
    · exact stepRound_reconstructed_subset select st
  | succ n ih =>
    rw [Process, Process]
    split
    · exact Finset.Subset.refl _
    · exact ih (stepRound select st)

theorem process_reconstructed_mono (select : RecState → Finset Nat) (n : Nat)
    (st : RecState) :
    st.reconstructed ⊆ (Process select n st).reconstructed := by
  induction n generalizing st with
  | zero => exact Finset.Subset.refl _
  | succ n ih =>
    rw [Process]
    split
    · exact Finset.Subset.refl _
    · exact (stepRound_reconstructed_subset select st).trans
        (ih (stepRound select st))

theorem stepRound_remaining_card_lt (select : RecState → Finset Nat)
    (st : RecState) (h : select st ∩ st.remaining ≠ ∅) :
    (stepRound select st).remaining.card < st.remaining.card := by
  have hsub : select st ∩ st.remaining ⊆ st.remaining :=
    Finset.inter_subset_right
  have hpos : 0 < (select st ∩ st.remaining).card :=
    Finset.card_pos.mpr (Finset.nonempty_iff_ne_empty.mpr h)
  have hle : (select st ∩ st.remaining).card ≤ st.remaining.card :=
    Finset.card_le_card hsub
  have := Finset.card_sdiff hsub
  simp only [stepRound]
  omega

theorem process_remaining_empty (select : RecState → Finset Nat) (k : Nat)
    (st : RecState) (h : st.remaining = ∅) : Process select k st = st := by
  cases k with
  | zero => rfl
  | succ k =>
    rw [Process, if_pos]
    rw [h, Finset.inter_empty]

theorem process_stabilizes (select : RecState → Finset Nat) (n : Nat) :
    ∀ (st : RecState), st.remaining.card ≤ n →
      ∀ k, Process select (n + k) st = Process select n st := by
  induction n with
  | zero =>
    intro st h k
    have hempty : st.remaining = ∅ :=
      Finset.card_eq_zero.mp (Nat.le_zero.mp h)
    rw [process_remaining_empty select _ st hempty,
      process_remaining_empty select 0 st hempty]
  | succ n ih =>
    intro st h k
    have harith : n + 1 + k = (n + k) + 1 := by omega
    rw [harith, Process, Process]
    split
    · rfl
    · rename_i hne
      have hlt := stepRound_remaining_card_lt select st hne
      exact ih (stepRound select st) (by omega) k

/-- Claim C8: the number of reconstructed views never decreases from one
round to the next, every round either strictly shrinks the remaining set
or halts the loop (a round with an empty batch changes nothing), and on a
finite input the loop reaches its fixed point within `remaining.card`
rounds — extra fuel changes nothing, so the loop terminates. -/
theorem C8_monotone_terminates (select : RecState → Finset Nat)
    (st : RecState) :
    (∀ n, (Process select n st).reconstructed.card ≤
      (Process select (n + 1) st).reconstructed.card) ∧
    (∀ n, st.reconstructed ⊆ (Process select n st).reconstructed) ∧
    (∀ k, Process select (st.remaining.card + k) st =
      Process select st.remaining.card st) ∧
    (∀ st' : RecState, select st' ∩ st'.remaining ≠ ∅ →
      (stepRound select st').remaining.card < st'.remaining.card) := by
  refine ⟨fun n => Finset.card_le_card (process_reconstructed_step select n st),
    fun n => process_reconstructed_mono select n st,
    process_stabilizes select st.remaining.card st (le_refl _),
    fun st' h => stepRound_remaining_card_lt select st' h⟩

/-- Claim C8, witness at a concrete state and selection. -/
theorem C8_monotone_terminates_witness :
    (Process select0 1 stW).reconstructed.card ≤
      (Process select0 2 stW).reconstructed.card ∧
    stW.reconstructed ⊆ (Process select0 2 stW).reconstructed ∧
    Process select0 (stW.remaining.card + 3) stW =
      Process select0 stW.remaining.card stW ∧
    (stepRound select0 stW).remaining.card < stW.remaining.card := by
  obtain ⟨h1, h2, h3, h4⟩ := C8_monotone_terminates select0 stW
  exact ⟨h1 1, h2 2, h3 3, h4 stW (by decide)⟩

/-! ### Connectivity ranking and batch selection (C2, C3) -/

theorem mem_findConnectedViews (tracksPerView : Nat → Finset Nat)
    (reconstructed : Finset Nat) (spatial : Nat → Nat)
    (intrinsicsFlag : Nat → Bool) (remaining : Finset Nat)
    (r : ViewConnectionScore) :
    r ∈ (FindConnectedViews tracksPerView reconstructed spatial intrinsicsFlag
        remaining).2 ↔
      r.id ∈ remaining ∧
        0 < sharedObservationCount tracksPerView reconstructed r.id ∧
        r = mkViewScore tracksPerView reconstructed spatial intrinsicsFlag
          r.id := by
  simp only [FindConnectedViews, List.mem_insertionSort, List.mem_map,
    Finset.mem_sort, Finset.mem_filter]
  constructor
  · rintro ⟨v, ⟨hv, hpos⟩, hr⟩
    have hid : r.id = v := by rw [← hr]; simp [mkViewScore]
    rw [hid]
    exact ⟨hv, hpos, hr.symm⟩
  · rintro ⟨hv, hpos, hr⟩
    exact ⟨r.id, ⟨hv, hpos⟩, hr.symm⟩

theorem sorted_findConnectedViews (tracksPerView : Nat → Finset Nat)
    (reconstructed : Finset Nat) (spatial : Nat → Nat)
    (intrinsicsFlag : Nat → Bool) (remaining : Finset Nat) :
    List.Sorted connLE
      (FindConnectedViews tracksPerView reconstructed spatial intrinsicsFlag
        remaining).2 :=
  List.sorted_insertionSort connLE _

theorem findConnectedViews_false_iff (tracksPerView : Nat → Finset Nat)
    (reconstructed : Finset Nat) (spatial : Nat → Nat)
    (intrinsicsFlag : Nat → Bool) (remaining : Finset Nat) :
    ((FindConnectedViews tracksPerView reconstructed spatial intrinsicsFlag
        remaining).1 = false ↔
      ∀ v ∈ remaining,
        sharedObservationCount tracksPerView reconstructed v = 0) := by
  have hnil : (FindConnectedViews tracksPerView reconstructed spatial
      intrinsicsFlag remaining).1 = false ↔
      (FindConnectedViews tracksPerView reconstructed spatial intrinsicsFlag
        remaining).2 = [] := by
    simp only [FindConnectedViews]
    cases h : List.insertionSort connLE
        (((remaining.filter (fun v =>
            0 < sharedObservationCount tracksPerView reconstructed v)).sort
          (fun a b => a ≤ b)).map
          (mkViewScore tracksPerView reconstructed spatial intrinsicsFlag)) <;>
      simp [h]
  rw [hnil]
  constructor
  · intro hempty v hv
    by_contra hne
    have hpos : 0 < sharedObservationCount tracksPerView reconstructed v :=
      Nat.pos_of_ne_zero hne
    have hmem := (mem_findConnectedViews tracksPerView reconstructed spatial
      intrinsicsFlag remaining
      (mkViewScore tracksPerView reconstructed spatial intrinsicsFlag v)).mpr
      ⟨hv, hpos, rfl⟩
    rw [hempty] at hmem
    exact (List.not_mem_nil _) hmem
  · intro hall
    rw [List.eq_nil_iff_forall_not_mem]
    intro r hr
    obtain ⟨hv, hpos, _⟩ := (mem_findConnectedViews tracksPerView reconstructed
      spatial intrinsicsFlag remaining r).mp hr
    rw [hall r.id hv] at hpos
    exact Nat.lt_irrefl 0 hpos

/-- Claim C2: `FindConnectedViews` returns exactly the remaining views with
a positive shared-observation count (each as its connection-score record),
the output is sorted descending by spatial score then shared count with
ties broken by ascending view id (the order `connLE`), and the returned
flag is false exactly when no remaining view shares any track with the
reconstruction. -/
theorem C2_findConnectedViews (tracksPerView : Nat → Finset Nat)
    (reconstructed : Finset Nat) (spatial : Nat → Nat)
    (intrinsicsFlag : Nat → Bool) (remaining : Finset Nat) :
    (∀ r : ViewConnectionScore,
      r ∈ (FindConnectedViews tracksPerView reconstructed spatial
          intrinsicsFlag remaining).2 ↔
        r.id ∈ remaining ∧
          0 < sharedObservationCount tracksPerView reconstructed r.id ∧
          r = mkViewScore tracksPerView reconstructed spatial intrinsicsFlag
            r.id) ∧
    List.Sorted connLE
      (FindConnectedViews tracksPerView reconstructed spatial intrinsicsFlag
        remaining).2 ∧
    ((FindConnectedViews tracksPerView reconstructed spatial intrinsicsFlag
        remaining).1 = false ↔
      ∀ v ∈ remaining,
        sharedObservationCount tracksPerView reconstructed v = 0) :=
  ⟨fun r => mem_findConnectedViews tracksPerView reconstructed spatial
      intrinsicsFlag remaining r,
    sorted_findConnectedViews tracksPerView reconstructed spatial
      intrinsicsFlag remaining,
    findConnectedViews_false_iff tracksPerView reconstructed spatial
      intrinsicsFlag remaining⟩

/-- Claim C3: a remaining view with fewer shared correspondences than
`minPointsPerPose` never appears in the resection batch, it is still in the
remaining set after the round, and when no remaining view clears the bar
the batch selector returns false. -/
theorem C3_below_bar_excluded (minPointsPerPose batchCap : Nat)
    (tracksPerView : Nat → Finset Nat) (spatial : Nat → Nat)
    (intrinsicsFlag : Nat → Bool) (solverOk : Nat → Bool) (st : RecState)
    (v : Nat)
    (hlt : sharedObservationCount tracksPerView st.reconstructed v <
      minPointsPerPose) :
    v ∉ (FindNextImagesGroupForResection minPointsPerPose batchCap
        tracksPerView st.reconstructed spatial intrinsicsFlag st.remaining).2 ∧
    (v ∈ st.remaining →
      v ∈ (stepRound (roundSelect minPointsPerPose batchCap tracksPerView
        spatial intrinsicsFlag solverOk) st).remaining) ∧
    ((∀ w ∈ st.remaining,
        sharedObservationCount tracksPerView st.reconstructed w <
          minPointsPerPose) →
      (FindNextImagesGroupForResection minPointsPerPose batchCap tracksPerView
        st.reconstructed spatial intrinsicsFlag st.remaining).1 = false) := by
  have hnotmem : v ∉ (FindNextImagesGroupForResection minPointsPerPose batchCap
      tracksPerView st.reconstructed spatial intrinsicsFlag st.remaining).2 := by
    simp only [FindNextImagesGroupForResection, List.mem_map]
    rintro ⟨r, hr, hid⟩
    have hr2 : r ∈ (FindConnectedViews tracksPerView st.reconstructed spatial
        intrinsicsFlag st.remaining).2.filter
        (fun r => minPointsPerPose ≤ r.nbCommonPoint) :=
      List.take_subset _ _ hr
    rw [List.mem_filter] at hr2
    obtain ⟨hconn, hbar⟩ := hr2
    obtain ⟨_, _, hrec⟩ := (mem_findConnectedViews tracksPerView
      st.reconstructed spatial intrinsicsFlag st.remaining r).mp hconn
    have hnb : r.nbCommonPoint =
        sharedObservationCount tracksPerView st.reconstructed r.id := by
      rw [hrec]; simp [mkViewScore]
    rw [hnb, hid] at hbar
    simp only [decide_eq_true_eq] at hbar
    omega
  refine ⟨hnotmem, ?_, ?_⟩
  · intro hv
    simp only [stepRound, Finset.mem_sdiff, Finset.mem_inter]
    refine ⟨hv, fun hx => ?_⟩
    have hsel := hx.1
    simp only [roundSelect, List.mem_toFinset, List.mem_filter] at hsel
    exact hnotmem hsel.1
  · intro hall
    simp only [FindNextImagesGroupForResection]
    have hfilter : (FindConnectedViews tracksPerView st.reconstructed spatial
        intrinsicsFlag st.remaining).2.filter
        (fun r => minPointsPerPose ≤ r.nbCommonPoint) = [] := by
      rw [List.filter_eq_nil_iff]
      intro r hr
      obtain ⟨hmem, hpos, hrec⟩ := (mem_findConnectedViews tracksPerView
        st.reconstructed spatial intrinsicsFlag st.remaining r).mp hr
      have hnb : r.nbCommonPoint =
          sharedObservationCount tracksPerView st.reconstructed r.id := by
        rw [hrec]; simp [mkViewScore]
      have := hall r.id hmem
      simp only [decide_eq_true_eq]
      omega
    rw [hfilter]
    simp

/-- Claim C3, witness: view 1 shares a single track with the
reconstruction, which is below a 30-point bar. -/
theorem C3_below_bar_excluded_witness :
    1 ∉ (FindNextImagesGroupForResection 30 2 tpv0 stW.reconstructed spatial0
        flag0 stW.remaining).2 ∧
    (1 ∈ stW.remaining →
      1 ∈ (stepRound (roundSelect 30 2 tpv0 spatial0 flag0 solverOk0)
        stW).remaining) ∧
    ((∀ w ∈ stW.remaining,
        sharedObservationCount tpv0 stW.reconstructed w < 30) →
      (FindNextImagesGroupForResection 30 2 tpv0 stW.reconstructed spatial0
        flag0 stW.remaining).1 = false) :=
  C3_below_bar_excluded 30 2 tpv0 spatial0 flag0 solverOk0 stW 1 (by decide)

/-! ### Robust resection of a batch (C5) -/

theorem robust_poses_apply {P : Type} (solver : Nat → Option P)
    (batch : List Nat) (poses : Nat → Option P) (v : Nat) :
    (RobustResectionOfImages solver batch poses).1 v =
      if v ∈ batch then
        (match solver v with
          | some p => some p
          | none => poses v)
      else poses v := by
  induction batch generalizing poses with
  | nil => simp [RobustResectionOfImages]
  | cons b rest ih =>
    cases hb : solver b with
    | some p =>
      simp only [RobustResectionOfImages, hb, ih]
      by_cases hvrest : v ∈ rest
      · have hmem : v ∈ b :: rest := List.mem_cons_of_mem _ hvrest
        rw [if_pos hvrest, if_pos hmem]
        cases hs : solver v with
        | some q => rfl
        | none =>
          have hvb : v ≠ b := by
            intro h; rw [h, hb] at hs; exact Option.noConfusion hs
          simp [extendPoses, hvb]
      · by_cases hvb : v = b
        · subst hvb
          simp [hvrest, extendPoses, hb]
        · simp [hvrest, hvb, extendPoses]
    | none =>
      simp only [RobustResectionOfImages, hb, ih]
      by_cases hvrest : v ∈ rest
      · have hmem : v ∈ b :: rest := List.mem_cons_of_mem _ hvrest
        rw [if_pos hvrest, if_pos hmem]
      · by_cases hvb : v = b
        · subst hvb
          simp [hvrest, hb]
        · simp [hvrest, hvb]

theorem robust_reconstructed_eq {P : Type} (solver : Nat → Option P)
    (batch : List Nat) (poses : Nat → Option P) :
    (RobustResectionOfImages solver batch poses).2.1 =
      (batch.filter (fun v => (solver v).isSome)).toFinset := by
  induction batch generalizing poses with
  | nil => simp [RobustResectionOfImages]
  | cons b rest ih =>
    cases hb : solver b with
    | some p =>
      simp [RobustResectionOfImages, hb, ih, List.filter_cons]
    | none =>
      simp [RobustResectionOfImages, hb, ih, List.filter_cons]

theorem robust_rejected_eq {P : Type} (solver : Nat → Option P)
    (batch : List Nat) (poses : Nat → Option P) :
    (RobustResectionOfImages solver batch poses).2.2 =
      (batch.filter (fun v => (solver v).isNone)).toFinset := by
  induction batch generalizing poses with
  | nil => simp [RobustResectionOfImages]
  | cons b rest ih =>
    cases hb : solver b with
    | some p =>
      simp [RobustResectionOfImages, hb, ih, List.filter_cons]
    | none =>
      simp [RobustResectionOfImages, hb, ih, List.filter_cons]

/-- Claim C5: in a batch resection, a view on which the solver fails keeps
its previous (absent) pose, lands in the rejected set, is not recorded as
reconstructed and thus stays in the remaining set; a view on which the
solver succeeds gets exactly the solver pose regardless of any other
view's failure; a view outside the batch is untouched; and a pose once
present is never removed. -/
theorem C5_resection_independence {P : Type} (solver : Nat → Option P)
    (batch : List Nat) (poses : Nat → Option P) (remaining : Finset Nat) :
    (∀ v ∈ batch, solver v = none →
      (RobustResectionOfImages solver batch poses).1 v = poses v ∧
      v ∈ (RobustResectionOfImages solver batch poses).2.2 ∧
      v ∉ (RobustResectionOfImages solver batch poses).2.1) ∧
    (∀ w ∈ batch, ∀ p, solver w = some p →
      (RobustResectionOfImages solver batch poses).1 w = some p ∧
      w ∈ (RobustResectionOfImages solver batch poses).2.1 ∧
      w ∉ (RobustResectionOfImages solver batch poses).2.2) ∧
    (∀ v p, poses v = some p →
      ∃ q, (RobustResectionOfImages solver batch poses).1 v = some q) ∧
    (∀ v, v ∉ batch →
      (RobustResectionOfImages solver batch poses).1 v = poses v) ∧
    (∀ v ∈ batch, solver v = none → v ∈ remaining →
      v ∈ remaining \ (RobustResectionOfImages solver batch poses).2.1) := by
  refine ⟨?_, ?_, ?_, ?_, ?_⟩
  · intro v hv hfail
    refine ⟨?_, ?_, ?_⟩
    · rw [robust_poses_apply, if_pos hv, hfail]
    · rw [robust_rejected_eq]
      simp [List.mem_filter, hv, hfail]
    · rw [robust_reconstructed_eq]
      simp [List.mem_filter, hfail]
  · intro w hw p hok
    refine ⟨?_, ?_, ?_⟩
    · rw [robust_poses_apply, if_pos hw, hok]
    · rw [robust_reconstructed_eq]
      simp [List.mem_filter, hw, hok]
    · rw [robust_rejected_eq]
      simp [List.mem_filter, hok]
  · intro v p hp
    rw [robust_poses_apply]
    by_cases hv : v ∈ batch
    · cases hs : solver v with
      | some q => exact ⟨q, by simp [hv, hs]⟩
      | none => exact ⟨p, by simp [hv, hs, hp]⟩
    · exact ⟨p, by simp [hv, hp]⟩
  · intro v hv
    rw [robust_poses_apply, if_neg hv]
  · intro v hv hfail hrem
    rw [Finset.mem_sdiff, robust_reconstructed_eq]
    refine ⟨hrem, ?_⟩
    simp [List.mem_filter, hfail]

/-- Claim C5, witness: batch `[1, 2]` with a solver failing on view 1 and
succeeding on view 2, a prior pose on view 3 and remaining set `{1, 2}`. -/
theorem C5_resection_independence_witness :
    ((RobustResectionOfImages solver1 [1, 2] poses1).1 1 = poses1 1 ∧
      1 ∈ (RobustResectionOfImages solver1 [1, 2] poses1).2.2 ∧
      1 ∉ (RobustResectionOfImages solver1 [1, 2] poses1).2.1) ∧
    ((RobustResectionOfImages solver1 [1, 2] poses1).1 2 = some 7 ∧
      2 ∈ (RobustResectionOfImages solver1 [1, 2] poses1).2.1 ∧
      2 ∉ (RobustResectionOfImages solver1 [1, 2] poses1).2.2) ∧
    (∃ q, (RobustResectionOfImages solver1 [1, 2] poses1).1 3 = some q) ∧
    (RobustResectionOfImages solver1 [1, 2] poses1).1 5 = poses1 5 ∧
    1 ∈ ({1, 2} : Finset Nat) \
      (RobustResectionOfImages solver1 [1, 2] poses1).2.1 := by
  obtain ⟨ha, hb, hc, hd, he⟩ :=
    C5_resection_independence solver1 [1, 2] poses1 {1, 2}
  exact ⟨ha 1 (by decide) (by decide), hb 2 (by decide) 7 (by decide),
    hc 3 5 (by decide), hd 5 (by decide),
    he 1 (by decide) (by decide) (by decide)⟩

/-! ### Bad-track rejection (C6) -/

theorem mem_badTrackRejector (precision : Int) (lms : List Landmark)
    (lm : Landmark) :
    lm ∈ (badTrackRejector precision lms).1 ↔
      (∃ lm0 ∈ lms, lm = filterLandmarkObs precision lm0) ∧
        2 ≤ lm.obs.length := by
  simp only [badTrackRejector, List.mem_filter, List.mem_map,
    decide_eq_true_eq]
  constructor
  · rintro ⟨⟨lm0, h0, hlm⟩, hlen⟩
    exact ⟨⟨lm0, h0, hlm.symm⟩, hlen⟩
  · rintro ⟨⟨lm0, h0, hlm⟩, hlen⟩
    exact ⟨⟨lm0, h0, hlm.symm⟩, hlen⟩

/-- Claim C6: after `badTrackRejector` every surviving landmark has at
least two observations, from distinct reconstructed views when the input
had that shape, and none of its residuals exceeds the precision; a
landmark whose filtered observation list keeps at least two observations
survives (as its filtered self) while one left with fewer than two is
removed; and the reported count is exactly the number of observations
whose residual exceeds the precision. -/
theorem C6_badTrackRejector (precision : Int) (reconstructed : Finset Nat)
    (lms : List Landmark)
    (hnodup : ∀ lm ∈ lms, (lm.obs.map (fun o => o.viewId)).Nodup)
    (hrec : ∀ lm ∈ lms, ∀ o ∈ lm.obs, o.viewId ∈ reconstructed) :
    (∀ lm ∈ (badTrackRejector precision lms).1,
      2 ≤ lm.obs.length ∧ (lm.obs.map (fun o => o.viewId)).Nodup ∧
        ∀ o ∈ lm.obs, o.viewId ∈ reconstructed ∧ o.residual ≤ precision) ∧
    (∀ lm ∈ lms, 2 ≤ (filterLandmarkObs precision lm).obs.length →
      filterLandmarkObs precision lm ∈ (badTrackRejector precision lms).1) ∧
    (∀ lm ∈ lms, (filterLandmarkObs precision lm).obs.length < 2 →
      filterLandmarkObs precision lm ∉ (badTrackRejector precision lms).1) ∧
    (badTrackRejector precision lms).2 =
      (lms.map (fun lm =>
        (lm.obs.filter (fun o => decide (precision < o.residual))).length)).sum
    := by
  refine ⟨?_, ?_, ?_, ?_⟩
  · intro lm hm
    obtain ⟨⟨lm0, h0, hlm⟩, hlen⟩ :=
      (mem_badTrackRejector precision lms lm).mp hm
    have hobs : lm.obs = lm0.obs.filter (fun o => o.residual ≤ precision) := by
      rw [hlm]; rfl
    refine ⟨hlen, ?_, ?_⟩
    · rw [hobs]
      exact (hnodup lm0 h0).sublist
        (List.Sublist.map _ (List.filter_sublist _))
    · intro o ho
      rw [hobs, List.mem_filter] at ho
      exact ⟨hrec lm0 h0 o ho.1, by simpa using ho.2⟩
  · intro lm hm hlen
    exact (mem_badTrackRejector precision lms _).mpr ⟨⟨lm, hm, rfl⟩, hlen⟩
  · intro lm hm hlen hmem
    obtain ⟨_, hlen2⟩ := (mem_badTrackRejector precision lms _).mp hmem
    omega
  · simp only [badTrackRejector, List.countP_eq_length_filter]

/-- Claim C6, witness: at precision 10 the first landmark keeps two
observations and survives, the second keeps one and is removed, and two
observations are reported removed. -/
theorem C6_badTrackRejector_witness :
    (∀ lm ∈ (badTrackRejector 10 lmsW).1,
      2 ≤ lm.obs.length ∧ (lm.obs.map (fun o => o.viewId)).Nodup ∧
        ∀ o ∈ lm.obs, o.viewId ∈ recW ∧ o.residual ≤ 10) ∧
    (∀ lm ∈ lmsW, 2 ≤ (filterLandmarkObs 10 lm).obs.length →
      filterLandmarkObs 10 lm ∈ (badTrackRejector 10 lmsW).1) ∧
    (∀ lm ∈ lmsW, (filterLandmarkObs 10 lm).obs.length < 2 →
      filterLandmarkObs 10 lm ∉ (badTrackRejector 10 lmsW).1) ∧
    (badTrackRejector 10 lmsW).2 =
      (lmsW.map (fun lm =>
        (lm.obs.filter (fun o => decide ((10:Int) < o.residual))).length)).sum :=
  C6_badTrackRejector 10 recW lmsW (by decide) (by decide)

/-! ### Refinement stage (C7) -/

theorem filterLandmarkObs_of_le (p : Int) (lm : Landmark)
    (h : ∀ o ∈ lm.obs, o.residual ≤ p) : filterLandmarkObs p lm = lm := by
  unfold filterLandmarkObs
  have hf : lm.obs.filter (fun o => decide (o.residual ≤ p)) = lm.obs :=
    List.filter_eq_self.mpr (fun o ho => decide_eq_true (h o ho))
  rw [hf]

theorem cleanScene_map_filter (p : Int) (s : List Landmark)
    (h : CleanScene p s) : s.map (filterLandmarkObs p) = s := by
  induction s with
  | nil => rfl
  | cons lm rest ih =>
    rw [List.map_cons,
      filterLandmarkObs_of_le p lm (h lm (List.mem_cons_self lm rest)).2,
      ih (fun x hx => h x (List.mem_cons_of_mem lm hx))]

theorem cleanScene_filter_len (p : Int) (s : List Landmark)
    (h : CleanScene p s) :
    s.filter (fun lm => decide (2 ≤ lm.obs.length)) = s :=
  List.filter_eq_self.mpr (fun lm hm => decide_eq_true (h lm hm).1)

theorem cleanScene_outliers_zero (p : Int) (s : List Landmark)
    (h : CleanScene p s) :
    (s.map (fun lm => lm.obs.countP (fun o => decide (p < o.residual)))).sum
      = 0 := by
  induction s with
  | nil => rfl
  | cons lm rest ih =>
    rw [List.map_cons, List.sum_cons,
      ih (fun x hx => h x (List.mem_cons_of_mem lm hx)),
      List.countP_eq_zero.mpr]
    intro o ho
    have := (h lm (List.mem_cons_self lm rest)).2 o ho
    simp only [decide_eq_true_eq]
    omega

theorem badTrackRejector_of_clean (p : Int) (s : List Landmark)
    (h : CleanScene p s) : badTrackRejector p s = (s, 0) := by
  simp only [badTrackRejector]
  rw [cleanScene_map_filter p s h, cleanScene_filter_len p s h,
    cleanScene_outliers_zero p s h]

theorem badTrackRejector_clean (p : Int) (s : List Landmark) :
    CleanScene p ((badTrackRejector p s).1) := by
  intro lm hm
  obtain ⟨⟨lm0, h0, hlm⟩, hlen⟩ := (mem_badTrackRejector p s lm).mp hm
  refine ⟨hlen, fun o ho => ?_⟩
  have hobs : lm.obs = lm0.obs.filter (fun o => decide (o.residual ≤ p)) := by
    rw [hlm]; rfl
  rw [hobs, List.mem_filter] at ho
  simpa using ho.2

theorem refinementStage_clean (ba : List Landmark → List Landmark) (p : Int)
    (n : Nat) (s : List Landmark) :
    CleanScene p ((RefinementStage ba p (n + 1) s).1) := by
  induction n generalizing s with
  | zero =>
    simp only [RefinementStage]
    split
    · exact badTrackRejector_clean p _
    · exact badTrackRejector_clean p _
  | succ n ih =>
    simp only [RefinementStage]
    split
    · exact badTrackRejector_clean p _
    · exact ih _

/-- Claim C7 (amended): after a refinement run, if bundle adjustment leaves
the resulting scene fixed (it has converged), a second identical run
removes zero further observations; and as soon as one rejection pass
removes zero observations the alternation stops — extra iterations up to
any cap change nothing, the loop result is that of a single iteration. -/
theorem C7_refinement_idempotent (ba : List Landmark → List Landmark)
    (p : Int) (n : Nat) (s : List Landmark)
    (_hzero : (RefinementStage ba p (n + 1) s).2 = 0)
    (hfix : ba ((RefinementStage ba p (n + 1) s).1) =
      (RefinementStage ba p (n + 1) s).1) :
    (RefinementStage ba p (n + 1) ((RefinementStage ba p (n + 1) s).1)).2
      = 0 ∧
    ((badTrackRejector p (ba s)).2 = 0 →
      ∀ m, RefinementStage ba p (m + 1) s = RefinementStage ba p 1 s) := by
  constructor
  · have hclean : CleanScene p ((RefinementStage ba p (n + 1) s).1) :=
      refinementStage_clean ba p n s
    have hreject : badTrackRejector p
        (ba ((RefinementStage ba p (n + 1) s).1)) =
        ((RefinementStage ba p (n + 1) s).1, 0) := by
      rw [hfix]
      exact badTrackRejector_of_clean p _ hclean
    generalize hgen : (RefinementStage ba p (n + 1) s).1 = s1 at hreject ⊢
    simp [RefinementStage, hreject]
  · intro h m
    cases m with
    | zero => rfl
    | succ m => simp [RefinementStage, h]

/-- Claim C7, counterexample: with an external bundle-adjustment outcome
that perturbs the converged scene, a first run removes zero observations
yet a second identical run with the same precision removes one more, so
the claim as stated (without a convergence assumption on bundle
adjustment) is false. -/
theorem C7_counterexample :
    (RefinementStage baCe 10 2 sceneCe).2 = 0 ∧
    (RefinementStage baCe 10 2 ((RefinementStage baCe 10 2 sceneCe).1)).2
      ≠ 0 := by decide

/-- Claim C7, witness: with the identity bundle adjustment on a clean
scene, the second run removes zero observations and the alternation is
insensitive to extra fuel once rejection removes zero. -/
theorem C7_refinement_idempotent_witness :
    (RefinementStage (fun s => s) 10 1
      ((RefinementStage (fun s => s) 10 1 sceneGood).1)).2 = 0 ∧
    RefinementStage (fun s => s) 10 3 sceneGood =
      RefinementStage (fun s => s) 10 1 sceneGood := by
  obtain ⟨h1, h2⟩ :=
    C7_refinement_idempotent (fun s => s) 10 0 sceneGood (by decide) (by decide)
  exact ⟨h1, h2 (by decide) 2⟩

/-! ### Pyramid scoring (C4) -/

theorem saturCount_of_count_le (T : Nat) (cells : List Nat) :
    ∀ (cnt : Nat → Nat), (∀ c, cnt c + cells.count c ≤ T) →
      saturCount T cnt cells = cells.length := by
  induction cells with
  | nil => intro cnt h; rfl
  | cons c rest ih =>
    intro cnt h
    have hc := h c
    simp only [List.count_cons_self] at hc
    have hlt : cnt c < T := by omega
    simp only [saturCount, if_pos hlt]
    rw [ih]
    · simp [Nat.add_comm]
    · intro x
      by_cases hx : x = c
      · subst hx
        simp only [if_pos rfl]
        simp only [ite_true]
        omega
      · have hxx := h x
        rw [List.count_cons_of_ne hx] at hxx
        simp only [if_neg hx]
        omega

theorem saturCount_replicate (T n c : Nat) :
    ∀ (cnt : Nat → Nat),
      saturCount T cnt (List.replicate n c) = min n (T - cnt c) := by
  induction n with
  | zero => intro cnt; simp [saturCount]
  | succ n ih =>
    intro cnt
    rw [List.replicate_succ]
    simp only [saturCount]
    rw [ih]
    have hcc : (if c = c then cnt c + 1 else cnt c) = cnt c + 1 := by simp
    rw [hcc]
    by_cases h : cnt c < T
    · rw [if_pos h]; omega
    · rw [if_neg h]; omega

theorem saturCount_append_singleton (T c : Nat) (cells : List Nat) :
    ∀ (cnt : Nat → Nat),
      saturCount T cnt (cells ++ [c]) =
        saturCount T cnt cells +
          (if cnt c + cells.count c < T then 1 else 0) := by
  induction cells with
  | nil =>
    intro cnt
    simp [saturCount]
  | cons c' rest ih =>
    intro cnt
    rw [List.cons_append]
    simp only [saturCount]
    rw [ih]
    have hcnt : (if c = c' then cnt c + 1 else cnt c) =
        cnt c + (if c = c' then 1 else 0) := by
      by_cases h : c = c' <;> simp [h]
    have hcount : (c' :: rest).count c =
        rest.count c + (if c = c' then 1 else 0) := by
      by_cases h : c = c'
      · subst h; simp
      · simp [List.count_cons_of_ne h, h]
    rw [hcnt, hcount]
    have harith : cnt c + (if c = c' then 1 else 0) + rest.count c =
        cnt c + (rest.count c + (if c = c' then 1 else 0)) := by omega
    rw [harith]
    omega

theorem cellsAtLevel_append_singleton (obs : List (List Nat)) (o : List Nat)
    (l : Nat) :
    cellsAtLevel (obs ++ [o]) l = cellsAtLevel obs l ++ [o.getD l 0] := by
  simp [cellsAtLevel]

theorem cellsAtLevel_length (obs : List (List Nat)) (l : Nat) :
    (cellsAtLevel obs l).length = obs.length := by
  simp [cellsAtLevel]

theorem computeImageScore_append (weights : List Nat) (T : Nat)
    (obs : List (List Nat)) (o : List Nat) :
    computeImageScore weights T (obs ++ [o]) =
      computeImageScore weights T obs +
        (Finset.range weights.length).sum (fun l =>
          if (cellsAtLevel obs l).count (o.getD l 0) < T
          then weights.getD l 0 else 0) := by
  unfold computeImageScore
  rw [← Finset.sum_add_distrib]
  apply Finset.sum_congr rfl
  intro l _
  rw [cellsAtLevel_append_singleton, saturCount_append_singleton]
  have hz : (fun _ => (0 : Nat)) (o.getD l 0) +
      (cellsAtLevel obs l).count (o.getD l 0) =
      (cellsAtLevel obs l).count (o.getD l 0) := by simp
  rw [hz, Nat.mul_add]
  congr 1
  by_cases h : (cellsAtLevel obs l).count (o.getD l 0) < T
  · rw [if_pos h, if_pos h, Nat.mul_one]
  · rw [if_neg h, if_neg h, Nat.mul_zero]

/-- Claim C4 (amended): at a pyramid level `d` with positive weight, if a
view's `n` observations occupy level-`d` cells each counted below the
saturation threshold while a second view's observations all fall in one
level-`d` cell, the two views agree cell-wise on every other level, and
`n` exceeds the threshold, then the spread view scores strictly higher;
and appending one observation adds `weight[level]` for exactly the levels
whose target cell is still below the threshold, zero for saturated
cells. -/
theorem C4_spread_scores_higher (weights : List Nat) (T d n : Nat)
    (obsA obsB : List (List Nat)) (c0 : Nat)
    (hd : d < weights.length)
    (hw : 0 < weights.getD d 0)
    (hn : T < n)
    (hlenA : obsA.length = n)
    (hother : ∀ l, l < weights.length → l ≠ d →
      cellsAtLevel obsA l = cellsAtLevel obsB l)
    (hAcells : ∀ c ∈ cellsAtLevel obsA d, (cellsAtLevel obsA d).count c < T)
    (hBconc : cellsAtLevel obsB d = List.replicate n c0) :
    computeImageScore weights T obsB < computeImageScore weights T obsA ∧
    (∀ (obs : List (List Nat)) (o : List Nat),
      computeImageScore weights T (obs ++ [o]) =
        computeImageScore weights T obs +
          (Finset.range weights.length).sum (fun l =>
            if (cellsAtLevel obs l).count (o.getD l 0) < T
            then weights.getD l 0 else 0)) := by
  have hcntA : ∀ c, (fun _ => (0 : Nat)) c + (cellsAtLevel obsA d).count c
      ≤ T := by
    intro c
    by_cases hc : c ∈ cellsAtLevel obsA d
    · have := hAcells c hc
      simp only []
      omega
    · rw [List.count_eq_zero_of_not_mem hc]
      simp
  have hA : saturCount T (fun _ => 0) (cellsAtLevel obsA d) = n := by
    rw [saturCount_of_count_le T (cellsAtLevel obsA d) (fun _ => 0) hcntA,
      cellsAtLevel_length, hlenA]
  have hB : saturCount T (fun _ => 0) (cellsAtLevel obsB d) = T := by
    rw [hBconc, saturCount_replicate]
    show min n (T - 0) = T
    omega
  refine ⟨?_, computeImageScore_append weights T⟩
  unfold computeImageScore
  apply Finset.sum_lt_sum
  · intro l hl
    rw [Finset.mem_range] at hl
    by_cases hld : l = d
    · subst hld
      rw [hA, hB]
      exact Nat.mul_le_mul_left _ (Nat.le_of_lt hn)
    · rw [hother l hl hld]
  · refine ⟨d, Finset.mem_range.mpr hd, ?_⟩
    rw [hA, hB]
    exact mul_lt_mul_of_pos_left hn hw

/-- Claim C4, counterexample: with threshold 5, two observations spread
over two distinct level-1 cells (each counted once, below the threshold)
score exactly the same as the same two observations concentrated in a
single level-1 cell, because an unsaturated concentrated cell still lets
every observation contribute — so the claimed strict inequality is false
as stated. -/
theorem C4_counterexample :
    0 < 1 ∧ 1 < 2 ∧
    (cellsAtLevel obsACe 1).dedup.length = 2 ∧
    (∀ c ∈ cellsAtLevel obsACe 1, (cellsAtLevel obsACe 1).count c < 5) ∧
    cellsAtLevel obsBCe 1 = List.replicate 2 0 ∧
    obsACe.length = obsBCe.length ∧
    ¬ computeImageScore [1, 2] 5 obsBCe < computeImageScore [1, 2] 5 obsACe
    := by decide

/-- Claim C4, witness: three observations over three distinct level-1
cells against three concentrated ones, threshold 2, weights 1 and 2. -/
theorem C4_spread_scores_higher_witness :
    computeImageScore [1, 2] 2 [[0, 0], [0, 0], [0, 0]] <
      computeImageScore [1, 2] 2 [[0, 0], [0, 1], [0, 2]] ∧
    computeImageScore [1, 2] 2 (([[0, 0]] : List (List Nat)) ++ [[1, 1]]) =
      computeImageScore [1, 2] 2 [[0, 0]] +
        (Finset.range ([1, 2] : List Nat).length).sum (fun l =>
          if (cellsAtLevel [[0, 0]] l).count ([1, 1].getD l 0) < 2
          then ([1, 2] : List Nat).getD l 0 else 0) := by
  obtain ⟨h1, h2⟩ := C4_spread_scores_higher [1, 2] 2 1 3
    [[0, 0], [0, 1], [0, 2]] [[0, 0], [0, 0], [0, 0]] 0
    (by decide) (by decide) (by decide) (by decide)
    (by intro l hl hld
        have hl2 : l < 2 := by simpa using hl
        have hl0 : l = 0 := by omega
        subst hl0
        decide)
    (by decide) (by decide)
  exact ⟨h1, h2 [[0, 0]] [1, 1]⟩

end AliceVisionSfM
